import Mathlib

/-!
# failable: launching a unit of work and reporting completion or failure

A verification development for the Go package `failable` (`failable.go`).

The package starts a handler on a fresh goroutine and reports the outcome on
two fresh unbuffered channels: `completed` (no payload) and `failed` (an
error).  The handler receives a `fail` callback that sends on `failed` and then
calls `runtime.Goexit()`.

## Embedding

* A piece of code run on a goroutine is a value of the monad `Goroutine`: the
  ordered list of actions it performs together with the way it ends (`normal`
  return, `goexit`, or `blocked` forever).  An action is a side effect, a
  channel send, or the start of another goroutine (`go`), recorded with the
  whole behaviour of the started goroutine (`Thread`).
* `runtime.Goexit()` ends the goroutine that calls it and no other: code that
  follows it is skipped (`Goroutine.bind`), the deferred calls of the calling
  goroutine still run (`Goroutine.deferred`), and a goroutine started with `go`
  ends on its own (`Goroutine.go`).
* The two channels of one task are fed by the launched goroutine and by the
  goroutines the handler starts.  The value returned by `RunWithContext` is
  modelled by the launched goroutine (`Task`); `Task.completed` and
  `Task.failed` list the values sent on each channel when the consumer keeps
  receiving, goroutine by goroutine, a started goroutine at its `go`
  statement.
* `DoWithContext` receives once.  `Goroutine.offers` lists the sends that can be
  the first one received: the first send of the launched goroutine and of
  every goroutine started before it.  `DoWithContext` returns the list of the
  results the `select` can produce; `[none]` means that it never returns.
* Handlers are inputs of the package.  A handler body is a `Code` tree: side
  effects, calls of the `fail` parameter, nested function calls, `defer`
  statements, `go` statements, direct calls of `runtime.Goexit()`, a normal
  return, or a statement that never returns.  Panics are not modelled.
  `Code.path` is the reference reading of a body as long as it runs
  sequentially: what it does up to its first call of `fail`, whatever `fail`
  is.
-/

namespace Failable

/-! ## Data model -/

/-- A value of Go's `error` interface: `nil`, or a non-nil error value
identified by the address of its dynamic value together with its text. -/
inductive GoError where
  | nil
  | val (ptr : Nat) (msg : String)
  deriving DecidableEq, Repr

/-- The package variable `ErrNilFailure = errors.New("nil failure")`, the only
error value the package allocates. -/
def ErrNilFailure : GoError := .val 0 "nil failure"

/-- What a handler can observe of a `context.Context`. -/
inductive Context where
  | background
  | canceled
  | deadlineExceeded
  deriving DecidableEq, Repr

/-- An observable side effect of a handler, named by a label. -/
abbrev Effect := Nat

/-- A send on one of the two channels of a task: `completed <- struct{}{}` or
`failed <- err`. -/
inductive Signal where
  | completed
  | failed (err : GoError)
  deriving DecidableEq, Repr

/-- The way a piece of goroutine code ends. -/
inductive Exit (α : Type) where
  | normal (a : α)
  | goexit
  | blocked
  deriving DecidableEq, Repr

/-- The whole behaviour of a goroutine started by a `go` statement: its actions
in order, the goroutines it starts in turn, and the way it ends. -/
inductive Thread where
  | done (x : Exit Unit)
  | effect (e : Effect) (k : Thread)
  | send (s : Signal) (k : Thread)
  | spawn (child : Thread) (k : Thread)
  deriving DecidableEq, Repr

/-- One action of a goroutine. -/
inductive Action where
  | effect (e : Effect)
  | send (s : Signal)
  | spawn (child : Thread)
  deriving DecidableEq, Repr

namespace Thread

/-- The behaviour of a goroutine that performs `acts` and ends with `x`. -/
def ofActions : List Action → Exit Unit → Thread
  | [], x => .done x
  | .effect e :: r, x => .effect e (ofActions r x)
  | .send s :: r, x => .send s (ofActions r x)
  | .spawn c :: r, x => .spawn c (ofActions r x)

/-- The sends of a started goroutine and of the goroutines it starts. -/
def sends : Thread → List Signal
  | .done _ => []
  | .effect _ k => sends k
  | .send s k => s :: sends k
  | .spawn c k => sends c ++ sends k

/-- The side effects of a started goroutine and of the goroutines it starts. -/
def effects : Thread → List Effect
  | .done _ => []
  | .effect e k => e :: effects k
  | .send _ k => effects k
  | .spawn c k => effects c ++ effects k

/-- The sends that can be the first one received: the first send of the
goroutine and of every goroutine it starts before that send. -/
def offers : Thread → List Signal
  | .done _ => []
  | .effect _ k => offers k
  | .send s _ => [s]
  | .spawn c k => offers c ++ offers k

end Thread

namespace Action

/-- The sends of a list of actions, started goroutines included. -/
def sendsOf : List Action → List Signal
  | [] => []
  | .effect _ :: r => sendsOf r
  | .send s :: r => s :: sendsOf r
  | .spawn c :: r => c.sends ++ sendsOf r

/-- The side effects of a list of actions, started goroutines included. -/
def effectsOf : List Action → List Effect
  | [] => []
  | .effect e :: r => e :: effectsOf r
  | .send _ :: r => effectsOf r
  | .spawn c :: r => c.effects ++ effectsOf r

/-- The sends of a list of actions that can be the first one received. -/
def offersOf : List Action → List Signal
  | [] => []
  | .effect _ :: r => offersOf r
  | .send s :: _ => [s]
  | .spawn c :: r => c.offers ++ offersOf r

end Action

/-- The behaviour of a piece of code run on a goroutine: the actions it
performs, in order, and the way it ends. -/
structure Goroutine (α : Type) where
  actions : List Action
  exit : Exit α
  deriving DecidableEq, Repr

namespace Goroutine

/-- Normal return of a value. -/
def ret {α : Type} (a : α) : Goroutine α := ⟨[], .normal a⟩

/-- Sequencing: the rest runs only after a normal return. -/
def bind {α β : Type} (m : Goroutine α) (f : α → Goroutine β) : Goroutine β :=
  match m.exit with
  | .normal a => ⟨m.actions ++ (f a).actions, (f a).exit⟩
  | .goexit => ⟨m.actions, .goexit⟩
  | .blocked => ⟨m.actions, .blocked⟩

instance : Monad Goroutine where
  pure := ret
  bind := bind

/-- Perform one observable side effect. -/
def effect (e : Effect) : Goroutine Unit := ⟨[.effect e], .normal ()⟩

/-- A channel send `ch <- v`, as seen by a consumer that receives it. -/
def send (s : Signal) : Goroutine Unit := ⟨[.send s], .normal ()⟩

/-- The call `runtime.Goexit()`: the calling goroutine stops running its code;
its pending deferred calls run (`deferred`), then it terminates.  No other
goroutine is affected (`go`). -/
def Goexit {α : Type} : Goroutine α := ⟨[], .goexit⟩

/-- A statement that never returns (`select {}`, `for {}`). -/
def block {α : Type} : Goroutine α := ⟨[], .blocked⟩

/-- The statement `defer d()` followed by the rest `body` of the function: `d`
runs when `body` returns or when the goroutine is exiting through
`runtime.Goexit()`, not when `body` never returns.  The function returns
normally only if `d` does; a `Goexit` in either keeps the goroutine exiting. -/
def deferred {α : Type} (d : Goroutine Unit) (body : Goroutine α) : Goroutine α :=
  match body.exit with
  | .blocked => body
  | .normal a =>
      match d.exit with
      | .normal _ => ⟨body.actions ++ d.actions, .normal a⟩
      | .goexit => ⟨body.actions ++ d.actions, .goexit⟩
      | .blocked => ⟨body.actions ++ d.actions, .blocked⟩
  | .goexit =>
      match d.exit with
      | .normal _ => ⟨body.actions ++ d.actions, .goexit⟩
      | .goexit => ⟨body.actions ++ d.actions, .goexit⟩
      | .blocked => ⟨body.actions ++ d.actions, .blocked⟩

/-- The statement `go g()`: a new goroutine runs `g`; the caller goes on at
once, whatever way `g` ends. -/
def go (g : Goroutine Unit) : Goroutine Unit :=
  ⟨[.spawn (Thread.ofActions g.actions g.exit)], .normal ()⟩

/-- The sends of a goroutine and of the goroutines it starts. -/
def sends {α : Type} (g : Goroutine α) : List Signal := Action.sendsOf g.actions

/-- The side effects of a goroutine and of the goroutines it starts. -/
def effects {α : Type} (g : Goroutine α) : List Effect := Action.effectsOf g.actions

/-- The sends that can be the first one a consumer receives. -/
def offers {α : Type} (g : Goroutine α) : List Signal := Action.offersOf g.actions

end Goroutine

/-- Go type `FailFunc func(error)`. -/
abbrev FailFunc := GoError → Goroutine Unit

/-- Go type `HandlerFunc func(context.Context, FailFunc)`. -/
abbrev HandlerFunc := Context → FailFunc → Goroutine Unit

/-- Go type `SimpleHandlerFunc func(context.Context) error`. -/
abbrev SimpleHandlerFunc := Context → Goroutine GoError

/-- The task started by a launch: the launched goroutine, which feeds the two
returned channels together with the goroutines it starts. -/
abbrev Task := Goroutine Unit

/-- Go type `Completed <-chan struct{}`: the values the channel carries. -/
abbrev Completed := List Unit

/-- Go type `Failed <-chan error`: the values the channel carries. -/
abbrev Failed := List GoError

/-- The receive end `completed` of a task. -/
def Task.completed (t : Task) : Completed :=
  t.sends.filterMap fun s =>
    match s with
    | .completed => some ()
    | .failed _ => none

/-- The receive end `failed` of a task. -/
def Task.failed (t : Task) : Failed :=
  t.sends.filterMap fun s =>
    match s with
    | .completed => none
    | .failed err => some err

/-- The statement `select { case <-done: return nil; case err := <-fail: return err }`
on the channels of a task: every result it can produce, one for each send
that can be received first; `[none]` when no send is ever offered and the
`select` never returns. -/
def Task.select (t : Task) : List (Option GoError) :=
  match t.offers with
  | [] => [none]
  | s :: rest =>
      (s :: rest).map fun o =>
        match o with
        | .completed => some GoError.nil
        | .failed err => some err

/-! ## The package -/

/-- The closure `fail` built by `RunWithContext`:
`if err == nil { failed <- ErrNilFailure } else { failed <- err }; runtime.Goexit()`. -/
def fail : FailFunc := fun err => do
  if err = GoError.nil then
    Goroutine.send (.failed ErrNilFailure)
  else
    Goroutine.send (.failed err)
  Goroutine.Goexit

/-- Function `RunWithContext`: the goroutine `go func() { fn(ctx, fail); completed <- struct{}{} }()`
feeding the two fresh channels. -/
def RunWithContext (ctx : Context) (fn : HandlerFunc) : Task := do
  fn ctx fail
  Goroutine.send .completed

/-- Function `Run`: `RunWithContext(context.Background(), func(ctx, fail) { fn(fail) })`. -/
def Run (fn : FailFunc → Goroutine Unit) : Task :=
  RunWithContext Context.background fun _ctx fail => fn fail

/-- Function `DoWithContext`: `done, fail := RunWithContext(ctx, fn)`, then the
`select` on the two channels.  The value is the list of the results the call
can return; `[none]` when it never returns. -/
def DoWithContext (ctx : Context) (fn : HandlerFunc) : List (Option GoError) :=
  (RunWithContext ctx fn).select

/-- Function `Do`: `DoWithContext(context.Background(), func(ctx, fail) { fn(fail) })`. -/
def Do (fn : FailFunc → Goroutine Unit) : List (Option GoError) :=
  DoWithContext Context.background fun _ctx fail => fn fail

/-- Function `RunSimpleWithContext`: launch of the handler
`func(ctx, fail) { err := fn(ctx); if err != nil { fail(err) } }`. -/
def RunSimpleWithContext (ctx : Context) (fn : SimpleHandlerFunc) : Task :=
  RunWithContext ctx fun ctx fail => do
    let err ← fn ctx
    if err ≠ GoError.nil then
      fail err

/-- Function `RunSimple`: `RunSimpleWithContext(context.Background(), func(ctx) error { return fn() })`. -/
def RunSimple (fn : Goroutine GoError) : Task :=
  RunSimpleWithContext Context.background fun _ctx => fn

/-! ## Handler bodies -/

/-- The body of a function that holds a `FailFunc`: the statements it runs.
Here `ret` is the return of the function, `effect` a side effect, `fail err` a
call of the `FailFunc`, `block` a statement that never returns, `goexit` a
direct call of `runtime.Goexit()`, `call body` a nested function call,
`defer d` the statement `defer func() { d }()`, and `go g` the statement
`go func() { g }()`; the last argument is the code that follows in the same
function. -/
inductive Code where
  | ret
  | effect (e : Effect) (k : Code)
  | fail (err : GoError) (k : Code)
  | block
  | goexit
  | call (body : Code) (k : Code)
  | defer (d : Code) (k : Code)
  | go (g : Code) (k : Code)
  deriving Repr

namespace Code

/-- Run a function body with the given `fail` callback. -/
def exec : Code → FailFunc → Goroutine Unit
  | .ret, _ => pure ()
  | .effect e k, failFn => do
      Goroutine.effect e
      exec k failFn
  | .fail err k, failFn => do
      failFn err
      exec k failFn
  | .block, _ => Goroutine.block
  | .goexit, _ => Goroutine.Goexit
  | .call body k, failFn => do
      exec body failFn
      exec k failFn
  | .defer d k, failFn => Goroutine.deferred (exec d failFn) (exec k failFn)
  | .go g k, failFn => do
      Goroutine.go (exec g failFn)
      exec k failFn

/-- The body reached through a chain of nested calls: `outer` lists, innermost
first, what each enclosing caller does after its call returns. -/
def nest (c : Code) (outer : List Code) : Code := outer.foldl Code.call c

/-- No call of `fail` anywhere in the body. -/
def failFree : Code → Bool
  | .ret => true
  | .effect _ k => failFree k
  | .fail _ _ => false
  | .block => true
  | .goexit => true
  | .call body k => failFree body && failFree k
  | .defer d k => failFree d && failFree k
  | .go g k => failFree g && failFree k

/-- Every call of `fail` is made by the function itself or by a function it
calls: none by a deferred function, none by a started goroutine. -/
def failsDirectly : Code → Bool
  | .ret => true
  | .effect _ k => failsDirectly k
  | .fail _ k => failsDirectly k
  | .block => true
  | .goexit => true
  | .call body k => failsDirectly body && failsDirectly k
  | .defer d k => failFree d && failsDirectly k
  | .go g k => failFree g && failsDirectly k

/-- Every call of `fail` is made on the goroutine that runs the function (by the
function, by a function it calls or by a deferred function): none by a
started goroutine. -/
def failsOnOwnGoroutine : Code → Bool
  | .ret => true
  | .effect _ k => failsOnOwnGoroutine k
  | .fail _ k => failsOnOwnGoroutine k
  | .block => true
  | .goexit => true
  | .call body k => failsOnOwnGoroutine body && failsOnOwnGoroutine k
  | .defer d k => failsOnOwnGoroutine d && failsOnOwnGoroutine k
  | .go g k => failFree g && failsOnOwnGoroutine k

end Code

/-- No started goroutine of the list of actions ever sends. -/
def Action.quiet : List Action → Bool
  | [] => true
  | .effect _ :: r => quiet r
  | .send _ :: r => quiet r
  | .spawn c :: r => c.sends.isEmpty && quiet r

/-- What a handler body does up to its first call of `fail`, as long as it runs
sequentially. -/
inductive Path where
  | returns (effs : List Effect)
  | fails (effs : List Effect) (err : GoError)
  | blocks (effs : List Effect)
  | exits (effs : List Effect)
  | defersOrGoes
  deriving DecidableEq, Repr

/-- The effects `pre` in front of a path. -/
def Path.after (pre : List Effect) : Path → Path
  | .returns effs => .returns (pre ++ effs)
  | .fails effs err => .fails (pre ++ effs) err
  | .blocks effs => .blocks (pre ++ effs)
  | .exits effs => .exits (pre ++ effs)
  | .defersOrGoes => .defersOrGoes

/-- The reference reading of a handler body, independent of what `fail` does:
the effects performed before the body returns, first calls `fail`, blocks, or
calls `runtime.Goexit()` itself; `defersOrGoes` when a `defer` or `go`
statement comes first. -/
def Code.path : Code → Path
  | .ret => .returns []
  | .effect e k => (path k).after [e]
  | .fail err _ => .fails [] err
  | .block => .blocks []
  | .goexit => .exits []
  | .call body k =>
      match path body with
      | .returns effs => (path k).after effs
      | p => p
  | .defer _ _ => .defersOrGoes
  | .go _ _ => .defersOrGoes

/-- The handler `func(ctx, fail) { ... }` whose body, for context `ctx`, is
`h ctx`. -/
def handler (h : Context → Code) : HandlerFunc := fun ctx fail => (h ctx).exec fail

/-- The body of a function of type `func(context.Context) error`. -/
inductive SimpleCode where
  | ret (err : GoError)
  | effect (e : Effect) (k : SimpleCode)
  | block
  deriving Repr

/-- Run the body of a simple handler. -/
def SimpleCode.exec : SimpleCode → Goroutine GoError
  | .ret err => pure err
  | .effect e k => do
      Goroutine.effect e
      exec k
  | .block => Goroutine.block

/-- The value a simple handler body returns, with the effects performed before;
`none` when it never returns. -/
def SimpleCode.result : SimpleCode → Option (List Effect × GoError)
  | .ret err => some ([], err)
  | .effect e k => (result k).map fun r => (e :: r.1, r.2)
  | .block => none

/-- The simple handler `func(ctx) error { ... }` whose body, for context `ctx`,
is `h ctx`. -/
def simpleHandler (h : Context → SimpleCode) : SimpleHandlerFunc := fun ctx => (h ctx).exec

/-! ## Lemmas on the embedding -/

theorem bind_def {α β : Type} (m : Goroutine α) (f : α → Goroutine β) :
    (m >>= f) = Goroutine.bind m f := rfl

theorem pure_def {α : Type} (a : α) : (pure a : Goroutine α) = Goroutine.ret a := rfl

/-- The closure `fail` sends one non-nil error and ends the goroutine. -/
theorem fail_eq (err : GoError) :
    fail err = ⟨[.send (.failed (if err = GoError.nil then ErrNilFailure else err))], .goexit⟩ := by
  unfold fail
  by_cases h : err = GoError.nil <;>
    simp [h, bind_def, Goroutine.bind, Goroutine.send, Goroutine.Goexit]

theorem sendsOf_append (a b : List Action) :
    Action.sendsOf (a ++ b) = Action.sendsOf a ++ Action.sendsOf b := by
  induction a with
  | nil => rfl
  | cons x r ih => cases x <;> simp [Action.sendsOf, ih]

theorem effectsOf_append (a b : List Action) :
    Action.effectsOf (a ++ b) = Action.effectsOf a ++ Action.effectsOf b := by
  induction a with
  | nil => rfl
  | cons x r ih => cases x <;> simp [Action.effectsOf, ih]

theorem sendsOf_map_effect (effs : List Effect) :
    Action.sendsOf (effs.map Action.effect) = [] := by
  induction effs with
  | nil => rfl
  | cons e es ih => simpa [Action.sendsOf] using ih

theorem effectsOf_map_effect (effs : List Effect) :
    Action.effectsOf (effs.map Action.effect) = effs := by
  induction effs with
  | nil => rfl
  | cons e es ih => simpa [Action.effectsOf] using ih

theorem offersOf_map_effect_append (effs : List Effect) (rest : List Action) :
    Action.offersOf (effs.map Action.effect ++ rest) = Action.offersOf rest := by
  induction effs with
  | nil => rfl
  | cons e es ih => simpa [Action.offersOf] using ih

theorem sends_ofActions (acts : List Action) (x : Exit Unit) :
    (Thread.ofActions acts x).sends = Action.sendsOf acts := by
  induction acts with
  | nil => rfl
  | cons a r ih => cases a <;> simp [Thread.ofActions, Thread.sends, Action.sendsOf, ih]

theorem effects_ofActions (acts : List Action) (x : Exit Unit) :
    (Thread.ofActions acts x).effects = Action.effectsOf acts := by
  induction acts with
  | nil => rfl
  | cons a r ih => cases a <;> simp [Thread.ofActions, Thread.effects, Action.effectsOf, ih]

/-- A handler body run with the closure `fail`, read off its path. -/
theorem exec_fail (c : Code) :
    match c.path with
    | .returns effs => c.exec fail = ⟨effs.map Action.effect, .normal ()⟩
    | .fails effs err =>
        c.exec fail = ⟨effs.map Action.effect ++
          [.send (.failed (if err = GoError.nil then ErrNilFailure else err))], .goexit⟩
    | .blocks effs => c.exec fail = ⟨effs.map Action.effect, .blocked⟩
    | .exits effs => c.exec fail = ⟨effs.map Action.effect, .goexit⟩
    | .defersOrGoes => True := by
  induction c with
  | ret => rfl
  | effect e k ih =>
      simp only [Code.path]
      cases hk : k.path <;> rw [hk] at ih <;>
        simp_all [Path.after, Code.exec, bind_def, Goroutine.bind, Goroutine.effect]
  | fail err k _ =>
      simp only [Code.path, Code.exec, bind_def, fail_eq]
      simp [Goroutine.bind]
  | block => rfl
  | goexit => rfl
  | call b k ihb ihk =>
      simp only [Code.path]
      cases hb : b.path with
      | returns effs =>
          rw [hb] at ihb
          cases hk : k.path <;> rw [hk] at ihk <;>
            simp_all [Path.after, Code.exec, bind_def, Goroutine.bind]
      | fails effs err =>
          rw [hb] at ihb
          simp_all [Code.exec, bind_def, Goroutine.bind]
      | blocks effs =>
          rw [hb] at ihb
          simp_all [Code.exec, bind_def, Goroutine.bind]
      | exits effs =>
          rw [hb] at ihb
          simp_all [Code.exec, bind_def, Goroutine.bind]
      | defersOrGoes => trivial
  | defer d k _ _ => trivial
  | go g k _ _ => trivial

theorem exec_of_returns (c : Code) (effs : List Effect) (hp : c.path = .returns effs) :
    c.exec fail = ⟨effs.map Action.effect, .normal ()⟩ := by
  have := exec_fail c
  rw [hp] at this
  exact this

theorem exec_of_fails (c : Code) (effs : List Effect) (err : GoError)
    (hp : c.path = .fails effs err) :
    c.exec fail = ⟨effs.map Action.effect ++
      [.send (.failed (if err = GoError.nil then ErrNilFailure else err))], .goexit⟩ := by
  have := exec_fail c
  rw [hp] at this
  exact this

theorem exec_of_blocks (c : Code) (effs : List Effect) (hp : c.path = .blocks effs) :
    c.exec fail = ⟨effs.map Action.effect, .blocked⟩ := by
  have := exec_fail c
  rw [hp] at this
  exact this

theorem exec_of_exits (c : Code) (effs : List Effect) (hp : c.path = .exits effs) :
    c.exec fail = ⟨effs.map Action.effect, .goexit⟩ := by
  have := exec_fail c
  rw [hp] at this
  exact this

/-- The task launched for a handler body that returns. -/
theorem RunWithContext_of_returns (ctx : Context) (h : Context → Code) (effs : List Effect)
    (hp : (h ctx).path = .returns effs) :
    RunWithContext ctx (handler h)
      = ⟨effs.map Action.effect ++ [.send .completed], .normal ()⟩ := by
  simp [RunWithContext, handler, bind_def, exec_of_returns _ _ hp, Goroutine.bind, Goroutine.send]

/-- The task launched for a handler body that calls `fail`. -/
theorem RunWithContext_of_fails (ctx : Context) (h : Context → Code) (effs : List Effect)
    (err : GoError) (hp : (h ctx).path = .fails effs err) :
    RunWithContext ctx (handler h)
      = ⟨effs.map Action.effect ++
          [.send (.failed (if err = GoError.nil then ErrNilFailure else err))], .goexit⟩ := by
  simp [RunWithContext, handler, bind_def, exec_of_fails _ _ _ hp, Goroutine.bind]

/-- The task launched for a handler body that never returns. -/
theorem RunWithContext_of_blocks (ctx : Context) (h : Context → Code) (effs : List Effect)
    (hp : (h ctx).path = .blocks effs) :
    RunWithContext ctx (handler h) = ⟨effs.map Action.effect, .blocked⟩ := by
  simp [RunWithContext, handler, bind_def, exec_of_blocks _ _ hp, Goroutine.bind]

/-- The task launched for a handler body that calls `runtime.Goexit()` itself. -/
theorem RunWithContext_of_exits (ctx : Context) (h : Context → Code) (effs : List Effect)
    (hp : (h ctx).path = .exits effs) :
    RunWithContext ctx (handler h) = ⟨effs.map Action.effect, .goexit⟩ := by
  simp [RunWithContext, handler, bind_def, exec_of_exits _ _ hp, Goroutine.bind]

/-- The streams of a task that ends with one send on `failed`. -/
theorem task_fails (effs : List Effect) (d : GoError) :
    Task.failed ⟨effs.map Action.effect ++ [.send (.failed d)], .goexit⟩ = [d]
    ∧ Task.completed ⟨effs.map Action.effect ++ [.send (.failed d)], .goexit⟩ = []
    ∧ Goroutine.effects (⟨effs.map Action.effect ++ [.send (.failed d)], .goexit⟩ : Task) = effs
    ∧ Goroutine.sends (⟨effs.map Action.effect ++ [.send (.failed d)], .goexit⟩ : Task)
        = [.failed d]
    ∧ Task.select ⟨effs.map Action.effect ++ [.send (.failed d)], .goexit⟩ = [some d] := by
  simp [Task.failed, Task.completed, Task.select, Goroutine.sends, Goroutine.effects,
    Goroutine.offers, sendsOf_append, effectsOf_append, sendsOf_map_effect,
    effectsOf_map_effect, offersOf_map_effect_append, Action.sendsOf, Action.effectsOf,
    Action.offersOf]

/-- The streams of a task that ends with the send on `completed`. -/
theorem task_returns (effs : List Effect) :
    Task.completed ⟨effs.map Action.effect ++ [.send .completed], .normal ()⟩ = [()]
    ∧ Task.failed ⟨effs.map Action.effect ++ [.send .completed], .normal ()⟩ = []
    ∧ Goroutine.effects (⟨effs.map Action.effect ++ [.send .completed], .normal ()⟩ : Task) = effs
    ∧ Goroutine.sends (⟨effs.map Action.effect ++ [.send .completed], .normal ()⟩ : Task)
        = [.completed]
    ∧ Task.select ⟨effs.map Action.effect ++ [.send .completed], .normal ()⟩
        = [some GoError.nil] := by
  simp [Task.failed, Task.completed, Task.select, Goroutine.sends, Goroutine.effects,
    Goroutine.offers, sendsOf_append, effectsOf_append, sendsOf_map_effect,
    effectsOf_map_effect, offersOf_map_effect_append, Action.sendsOf, Action.effectsOf,
    Action.offersOf]

/-- The streams of a task that sends nothing. -/
theorem task_silent (effs : List Effect) (x : Exit Unit) :
    Task.completed ⟨effs.map Action.effect, x⟩ = []
    ∧ Task.failed ⟨effs.map Action.effect, x⟩ = []
    ∧ Goroutine.effects (⟨effs.map Action.effect, x⟩ : Task) = effs
    ∧ Goroutine.sends (⟨effs.map Action.effect, x⟩ : Task) = []
    ∧ Task.select ⟨effs.map Action.effect, x⟩ = [none] := by
  have h := offersOf_map_effect_append effs []
  simp only [List.append_nil] at h
  simp [Task.failed, Task.completed, Task.select, Goroutine.sends, Goroutine.effects,
    Goroutine.offers, sendsOf_map_effect, effectsOf_map_effect, h, Action.offersOf]

theorem ErrNilFailure_ne_nil : ErrNilFailure ≠ GoError.nil := by decide

theorem normalised_ne_nil (err : GoError) :
    (if err = GoError.nil then ErrNilFailure else err) ≠ GoError.nil := by
  by_cases h : err = GoError.nil
  · simpa [h] using ErrNilFailure_ne_nil
  · simp [h]

/-- The number of values on the two channels is the number of sends. -/
theorem completed_add_failed (t : Task) :
    t.completed.length + t.failed.length = t.sends.length := by
  unfold Task.completed Task.failed
  induction t.sends with
  | nil => rfl
  | cons s r ih =>
      cases s <;> simp [List.filterMap_cons] at ih ⊢ <;> omega

/-- At most one send leaves one of the two channels empty. -/
theorem completed_or_failed_nil (t : Task) (hle : t.sends.length ≤ 1) :
    t.completed = [] ∨ t.failed = [] := by
  have hsum := completed_add_failed t
  by_cases hc : t.completed = []
  · exact Or.inl hc
  · right
    have : 0 < t.completed.length := List.length_pos.mpr hc
    exact List.length_eq_zero.mp (by omega)

/-- A body without any call of `fail` sends nothing, whatever `fail` is. -/
theorem failFree_sends (c : Code) (f : FailFunc) (hc : c.failFree = true) :
    (c.exec f).sends = [] := by
  induction c with
  | ret => rfl
  | effect e k ih =>
      have hk := ih (by simpa [Code.failFree] using hc)
      simp only [Goroutine.sends] at hk ⊢
      simp [Code.exec, bind_def, Goroutine.bind, Goroutine.effect, Action.sendsOf, hk]
  | fail err k _ => simp [Code.failFree] at hc
  | block => rfl
  | goexit => rfl
  | call b k ihb ihk =>
      simp only [Code.failFree, Bool.and_eq_true] at hc
      have hb := ihb hc.1
      have hk := ihk hc.2
      simp only [Goroutine.sends] at hb hk ⊢
      simp only [Code.exec, bind_def, Goroutine.bind]
      cases (b.exec f).exit <;> simp [sendsOf_append, hb, hk]
  | defer d k ihd ihk =>
      simp only [Code.failFree, Bool.and_eq_true] at hc
      have hd := ihd hc.1
      have hk := ihk hc.2
      simp only [Goroutine.sends] at hd hk ⊢
      simp only [Code.exec, Goroutine.deferred]
      cases (k.exec f).exit <;> cases (d.exec f).exit <;> simp [sendsOf_append, hd, hk]
  | go g k ihg ihk =>
      simp only [Code.failFree, Bool.and_eq_true] at hc
      have hg := ihg hc.1
      have hk := ihk hc.2
      simp only [Goroutine.sends] at hg hk ⊢
      simp [Code.exec, bind_def, Goroutine.bind, Goroutine.go, Action.sendsOf,
        sends_ofActions, hg, hk]

/-- A body whose calls of `fail` are all direct sends at most once, and sends
nothing when it returns normally. -/
theorem failsDirectly_sends (c : Code) (hc : c.failsDirectly = true) :
    (c.exec fail).sends.length ≤ 1
    ∧ ((c.exec fail).exit = .normal () → (c.exec fail).sends = []) := by
  induction c with
  | ret => exact ⟨by decide, fun _ => rfl⟩
  | effect e k ih =>
      have hk := ih (by simpa [Code.failsDirectly] using hc)
      simp only [Goroutine.sends] at hk ⊢
      simpa [Code.exec, bind_def, Goroutine.bind, Goroutine.effect, Action.sendsOf] using hk
  | fail err k _ =>
      simp [Code.exec, bind_def, fail_eq, Goroutine.bind, Goroutine.sends, Action.sendsOf]
  | block => exact ⟨by decide, fun _ => rfl⟩
  | goexit => exact ⟨by decide, fun _ => rfl⟩
  | call b k ihb ihk =>
      simp only [Code.failsDirectly, Bool.and_eq_true] at hc
      have hb := ihb hc.1
      have hk := ihk hc.2
      simp only [Goroutine.sends] at hb hk ⊢
      simp only [Code.exec, bind_def, Goroutine.bind]
      cases hx : (b.exec fail).exit with
      | normal a =>
          have hb0 := hb.2 (by rw [hx])
          simpa [sendsOf_append, hb0] using hk
      | goexit => simpa using hb.1
      | blocked => simpa using hb.1
  | defer d k _ ihk =>
      simp only [Code.failsDirectly, Bool.and_eq_true] at hc
      have hd := failFree_sends d fail hc.1
      have hk := ihk hc.2
      simp only [Goroutine.sends] at hd hk ⊢
      simp only [Code.exec, Goroutine.deferred]
      cases hx : (k.exec fail).exit <;> cases hy : (d.exec fail).exit <;>
        simp_all [sendsOf_append]
  | go g k _ ihk =>
      simp only [Code.failsDirectly, Bool.and_eq_true] at hc
      have hg := failFree_sends g fail hc.1
      have hk := ihk hc.2
      simp only [Goroutine.sends] at hg hk ⊢
      simpa [Code.exec, bind_def, Goroutine.bind, Goroutine.go, Action.sendsOf,
        sends_ofActions, hg] using hk

/-- The task of a handler whose calls of `fail` are all direct sends at most
once. -/
theorem RunWithContext_failsDirectly (ctx : Context) (h : Context → Code)
    (hc : (h ctx).failsDirectly = true) :
    (RunWithContext ctx (handler h)).sends.length ≤ 1 := by
  obtain ⟨h1, h2⟩ := failsDirectly_sends (h ctx) hc
  simp only [Goroutine.sends] at h1 h2 ⊢
  simp only [RunWithContext, handler, bind_def, Goroutine.bind]
  cases hx : ((h ctx).exec fail).exit with
  | normal a =>
      have h0 := h2 (by rw [hx])
      simp [sendsOf_append, h0, Goroutine.send, Action.sendsOf]
  | goexit => simpa using h1
  | blocked => simpa using h1

/-- A simple handler body that returns, run on the goroutine. -/
theorem simple_exec_of_result (c : SimpleCode) (effs : List Effect) (err : GoError)
    (hr : c.result = some (effs, err)) : c.exec = ⟨effs.map Action.effect, .normal err⟩ := by
  induction c generalizing effs with
  | ret e =>
      simp only [SimpleCode.result, Option.some.injEq, Prod.mk.injEq] at hr
      obtain ⟨h1, h2⟩ := hr
      subst h1 h2
      rfl
  | effect e k ih =>
      simp only [SimpleCode.result, Option.map_eq_some'] at hr
      obtain ⟨r, hk, hr2⟩ := hr
      simp only [Prod.mk.injEq] at hr2
      obtain ⟨h1, h2⟩ := hr2
      subst h1 h2
      simp [SimpleCode.exec, bind_def, ih r.1 hk, Goroutine.bind, Goroutine.effect]
  | block => simp [SimpleCode.result] at hr

/-- The task launched for a simple handler body that returns `err`. -/
theorem RunSimpleWithContext_of_result (ctx : Context) (f : Context → SimpleCode)
    (effs : List Effect) (err : GoError) (hr : (f ctx).result = some (effs, err)) :
    RunSimpleWithContext ctx (simpleHandler f) =
      if err = GoError.nil then ⟨effs.map Action.effect ++ [.send .completed], .normal ()⟩
      else ⟨effs.map Action.effect ++ [.send (.failed err)], .goexit⟩ := by
  simp only [RunSimpleWithContext, RunWithContext, simpleHandler, bind_def,
    simple_exec_of_result (f ctx) effs err hr]
  by_cases h : err = GoError.nil
  · simp [h, Goroutine.bind, Goroutine.send, pure_def, Goroutine.ret]
  · simp [h, Goroutine.bind, fail_eq]

/-- Sending on `completed` after a piece of code adds no side effect. -/
theorem effects_bind_send (m : Goroutine Unit) :
    (Goroutine.bind m fun _ => Goroutine.send .completed).effects = m.effects := by
  obtain ⟨acts, x⟩ := m
  cases x <;>
    simp [Goroutine.bind, Goroutine.effects, Goroutine.send, effectsOf_append, Action.effectsOf]

/-- The wrapper of `RunSimpleWithContext` adds no side effect to its handler. -/
theorem effects_bind_failIfError (m : Goroutine GoError) :
    (Goroutine.bind m fun err => if err ≠ GoError.nil then fail err else pure ()).effects
      = m.effects := by
  obtain ⟨acts, x⟩ := m
  cases x with
  | normal err =>
      by_cases h : err = GoError.nil
      · simp [h, Goroutine.bind, Goroutine.effects, pure_def, Goroutine.ret]
      · simp [h, Goroutine.bind, Goroutine.effects, fail_eq, effectsOf_append, Action.effectsOf]
  | goexit => simp [Goroutine.bind, Goroutine.effects]
  | blocked => simp [Goroutine.bind, Goroutine.effects]

/-- A nested call whose callee calls `fail` has the path of the callee. -/
theorem path_nest_fails (outer : List Code) (c : Code) (effs : List Effect) (err : GoError)
    (hp : c.path = .fails effs err) : (c.nest outer).path = .fails effs err := by
  induction outer generalizing c with
  | nil => simpa [Code.nest] using hp
  | cons k ks ih =>
      have hcall : (Code.call c k).path = .fails effs err := by simp [Code.path, hp]
      have := ih (Code.call c k) hcall
      simpa [Code.nest] using this

/-- Every send of a handler body run with the closure `fail` is a non-nil error
on `failed`. -/
theorem exec_sends_failed (c : Code) :
    ∀ s ∈ (c.exec fail).sends, ∃ d, d ≠ GoError.nil ∧ s = Signal.failed d := by
  induction c with
  | ret => intro s hs; simp [Code.exec, pure_def, Goroutine.ret, Goroutine.sends, Action.sendsOf] at hs
  | effect e k ih =>
      intro s hs
      apply ih
      simpa [Code.exec, bind_def, Goroutine.bind, Goroutine.effect, Goroutine.sends,
        Action.sendsOf] using hs
  | fail err k _ =>
      intro s hs
      simp only [Code.exec, bind_def, fail_eq, Goroutine.bind, Goroutine.sends, Action.sendsOf,
        List.mem_singleton] at hs
      exact ⟨_, normalised_ne_nil err, hs⟩
  | block => intro s hs; simp [Code.exec, Goroutine.block, Goroutine.sends, Action.sendsOf] at hs
  | goexit => intro s hs; simp [Code.exec, Goroutine.Goexit, Goroutine.sends, Action.sendsOf] at hs
  | call b k ihb ihk =>
      intro s hs
      simp only [Goroutine.sends] at ihb ihk hs
      simp only [Code.exec, bind_def, Goroutine.bind] at hs
      cases hx : (b.exec fail).exit <;> rw [hx] at hs <;>
        simp only [sendsOf_append, List.mem_append] at hs
      · rcases hs with hs | hs
        · exact ihb s hs
        · exact ihk s hs
      · exact ihb s hs
      · exact ihb s hs
  | defer d k ihd ihk =>
      intro s hs
      simp only [Goroutine.sends] at ihd ihk hs
      simp only [Code.exec, Goroutine.deferred] at hs
      cases hx : (k.exec fail).exit <;> cases hy : (d.exec fail).exit <;>
        simp only [hx, hy, sendsOf_append, List.mem_append] at hs <;>
        first
          | exact ihk s hs
          | (rcases hs with hs | hs
             · exact ihk s hs
             · exact ihd s hs)
  | go g k ihg ihk =>
      intro s hs
      simp only [Goroutine.sends] at ihg ihk hs
      simp only [Code.exec, bind_def, Goroutine.bind, Goroutine.go, List.singleton_append,
        Action.sendsOf, sends_ofActions, List.mem_append] at hs
      rcases hs with hs | hs
      · exact ihg s hs
      · exact ihk s hs

theorem mem_failed (t : Task) (d : GoError) : d ∈ t.failed ↔ Signal.failed d ∈ t.sends := by
  unfold Task.failed
  induction t.sends with
  | nil => simp
  | cons s r ih => cases s <;> simp [List.filterMap_cons, ih]

/-- Every error a task delivers on `failed` is non-nil, whatever the handler. -/
theorem RunWithContext_failed_ne_nil (ctx : Context) (h : Context → Code) :
    ∀ d ∈ (RunWithContext ctx (handler h)).failed, d ≠ GoError.nil := by
  intro d hd
  rw [mem_failed] at hd
  have hE := exec_sends_failed (h ctx)
  simp only [Goroutine.sends] at hE hd
  simp only [RunWithContext, handler, bind_def, Goroutine.bind] at hd
  cases hx : ((h ctx).exec fail).exit <;> rw [hx] at hd
  · simp only [sendsOf_append, List.mem_append, Goroutine.send, Action.sendsOf,
      List.mem_singleton] at hd
    rcases hd with hd | hd
    · obtain ⟨d2, hd2, heq⟩ := hE _ hd
      simp only [Signal.failed.injEq] at heq
      rw [heq]; exact hd2
    · simp at hd
  · obtain ⟨d2, hd2, heq⟩ := hE _ hd
    simp only [Signal.failed.injEq] at heq
    rw [heq]; exact hd2
  · obtain ⟨d2, hd2, heq⟩ := hE _ hd
    simp only [Signal.failed.injEq] at heq
    rw [heq]; exact hd2

theorem offers_nil_of_sends_nil (t : Thread) (hs : t.sends = []) : t.offers = [] := by
  induction t with
  | done x => rfl
  | effect e k ih => exact ih hs
  | send s k _ => simp [Thread.sends] at hs
  | spawn c k ihc ihk =>
      simp only [Thread.sends, List.append_eq_nil] at hs
      simp [Thread.offers, ihc hs.1, ihk hs.2]

theorem quiet_append (a b : List Action) :
    Action.quiet (a ++ b) = (Action.quiet a && Action.quiet b) := by
  induction a with
  | nil => rfl
  | cons x r ih => cases x <;> simp [Action.quiet, ih, Bool.and_assoc]

/-- When no started goroutine sends, the send that can be received first is the
first send of the goroutine itself. -/
theorem offersOf_of_quiet (acts : List Action) (hq : Action.quiet acts = true) :
    Action.offersOf acts = (Action.sendsOf acts).take 1 := by
  induction acts with
  | nil => rfl
  | cons x r ih =>
      cases x with
      | effect e => simpa [Action.offersOf, Action.sendsOf] using ih hq
      | send s => simp [Action.offersOf, Action.sendsOf]
      | spawn c =>
          simp only [Action.quiet, Bool.and_eq_true, List.isEmpty_iff] at hq
          simp [Action.offersOf, Action.sendsOf, hq.1, offers_nil_of_sends_nil c hq.1, ih hq.2]

/-- A body whose calls of `fail` are all made on its own goroutine starts no
goroutine that sends, and sends nothing when it returns normally. -/
theorem failsOnOwnGoroutine_exec (c : Code) (hc : c.failsOnOwnGoroutine = true) :
    Action.quiet (c.exec fail).actions = true
    ∧ ((c.exec fail).exit = .normal () → (c.exec fail).sends = []) := by
  induction c with
  | ret => exact ⟨rfl, fun _ => rfl⟩
  | effect e k ih =>
      have hk := ih (by simpa [Code.failsOnOwnGoroutine] using hc)
      simp only [Goroutine.sends] at hk ⊢
      simpa [Code.exec, bind_def, Goroutine.bind, Goroutine.effect, Action.sendsOf,
        Action.quiet] using hk
  | fail err k _ =>
      simp [Code.exec, bind_def, fail_eq, Goroutine.bind, Action.quiet]
  | block => exact ⟨rfl, fun _ => rfl⟩
  | goexit => exact ⟨rfl, fun _ => rfl⟩
  | call b k ihb ihk =>
      simp only [Code.failsOnOwnGoroutine, Bool.and_eq_true] at hc
      have hb := ihb hc.1
      have hk := ihk hc.2
      simp only [Goroutine.sends] at hb hk ⊢
      simp only [Code.exec, bind_def, Goroutine.bind]
      cases hx : (b.exec fail).exit with
      | normal a =>
          have hb0 := hb.2 (by rw [hx])
          simpa [sendsOf_append, quiet_append, hb0, hb.1] using hk
      | goexit => simpa using hb.1
      | blocked => simpa using hb.1
  | defer d k ihd ihk =>
      simp only [Code.failsOnOwnGoroutine, Bool.and_eq_true] at hc
      have hd := ihd hc.1
      have hk := ihk hc.2
      simp only [Goroutine.sends] at hd hk ⊢
      simp only [Code.exec, Goroutine.deferred]
      cases hx : (k.exec fail).exit <;> cases hy : (d.exec fail).exit <;>
        simp_all [sendsOf_append, quiet_append]
  | go g k _ ihk =>
      simp only [Code.failsOnOwnGoroutine, Bool.and_eq_true] at hc
      have hg := failFree_sends g fail hc.1
      have hk := ihk hc.2
      simp only [Goroutine.sends] at hg hk ⊢
      simpa [Code.exec, bind_def, Goroutine.bind, Goroutine.go, Action.sendsOf,
        Action.quiet, sends_ofActions, hg] using hk

/-- The `select` on a task whose handler calls `fail` on its own goroutine only:
the outcome is decided by the first send of the launched goroutine. -/
theorem select_failsOnOwnGoroutine (ctx : Context) (h : Context → Code)
    (hc : (h ctx).failsOnOwnGoroutine = true) :
    (((h ctx).exec fail).exit = .normal () ∧
        (RunWithContext ctx (handler h)).sends = [.completed]
        ∧ DoWithContext ctx (handler h) = [some GoError.nil])
    ∨ (((h ctx).exec fail).exit ≠ .normal () ∧
        (RunWithContext ctx (handler h)).sends = []
        ∧ DoWithContext ctx (handler h) = [none])
    ∨ (((h ctx).exec fail).exit ≠ .normal () ∧
        ∃ d rest, d ≠ GoError.nil
          ∧ (RunWithContext ctx (handler h)).sends = .failed d :: rest
          ∧ DoWithContext ctx (handler h) = [some d]) := by
  obtain ⟨hq, hn⟩ := failsOnOwnGoroutine_exec (h ctx) hc
  have hE := exec_sends_failed (h ctx)
  simp only [Goroutine.sends] at hn hE
  simp only [DoWithContext, Task.select, Goroutine.offers, Goroutine.sends, RunWithContext,
    handler, bind_def, Goroutine.bind]
  cases hx : ((h ctx).exec fail).exit with
  | normal a =>
      left
      have h0 := hn (by rw [hx])
      have hq2 : Action.quiet (((h ctx).exec fail).actions ++ [Action.send .completed])
          = true := by
        simp [quiet_append, hq, Action.quiet]
      have hoff : Action.offersOf (((h ctx).exec fail).actions ++ [Action.send .completed])
          = [.completed] := by
        rw [offersOf_of_quiet _ hq2, sendsOf_append, h0]
        rfl
      simp [Goroutine.send, hoff, sendsOf_append, h0, Action.sendsOf]
  | goexit =>
      right
      cases hs : Action.sendsOf ((h ctx).exec fail).actions with
      | nil =>
          left
          simp [offersOf_of_quiet _ hq, hs]
      | cons s rest =>
          right
          obtain ⟨d, hd, heq⟩ := hE s (by rw [hs]; exact List.mem_cons_self _ _)
          subst heq
          refine ⟨by simp, d, rest, hd, rfl, ?_⟩
          simp [offersOf_of_quiet _ hq, hs]
  | blocked =>
      right
      cases hs : Action.sendsOf ((h ctx).exec fail).actions with
      | nil =>
          left
          simp [offersOf_of_quiet _ hq, hs]
      | cons s rest =>
          right
          obtain ⟨d, hd, heq⟩ := hE s (by rw [hs]; exact List.mem_cons_self _ _)
          subst heq
          refine ⟨by simp, d, rest, hd, rfl, ?_⟩
          simp [offersOf_of_quiet _ hq, hs]

/-- The task of a handler body that never calls `fail` and returns normally. -/
theorem RunWithContext_failFree_normal (ctx : Context) (h : Context → Code)
    (hc : (h ctx).failFree = true) (hx : ((h ctx).exec fail).exit = .normal ()) :
    (RunWithContext ctx (handler h)).completed = [()]
    ∧ (RunWithContext ctx (handler h)).failed = [] := by
  have hs := failFree_sends (h ctx) fail hc
  simp only [Goroutine.sends] at hs
  have h0 : (RunWithContext ctx (handler h)).sends = [.completed] := by
    simp [RunWithContext, handler, bind_def, Goroutine.bind, hx, Goroutine.sends,
      sendsOf_append, hs, Goroutine.send, Action.sendsOf]
  simp [Task.completed, Task.failed, h0]

/-! ## The claims -/

/-- C1, the claim as stated fails for three handlers that call `fail` with a
non-nil error.  With `go fail(e); effect(1)` the call ends the started
goroutine only, so the completion channel also carries a value.  With
`defer fail(e2); fail(e1)` the deferred call runs while the goroutine exits,
so the failure channel carries two errors.  With
`defer effect(2); effect(1); fail(e); effect(3)` the deferred effect is
performed after the call of `fail`. -/
theorem fail_delivers_error_and_stops_counterexample :
    (RunWithContext Context.background
        (handler fun _ => Code.go (Code.fail (.val 7 "e") Code.ret) (Code.effect 1 Code.ret))).failed
        = [GoError.val 7 "e"]
    ∧ (RunWithContext Context.background
        (handler fun _ => Code.go (Code.fail (.val 7 "e") Code.ret) (Code.effect 1 Code.ret))).completed
        ≠ []
    ∧ (RunWithContext Context.background
        (handler fun _ => Code.defer (Code.fail (.val 8 "e2") Code.ret)
          (Code.fail (.val 7 "e1") Code.ret))).failed
        = [GoError.val 7 "e1", GoError.val 8 "e2"]
    ∧ (RunWithContext Context.background
        (handler fun _ => Code.defer (Code.fail (.val 8 "e2") Code.ret)
          (Code.fail (.val 7 "e1") Code.ret))).failed
        ≠ [GoError.val 7 "e1"]
    ∧ (RunWithContext Context.background
        (handler fun _ => Code.defer (Code.effect 2 Code.ret)
          (Code.effect 1 (Code.fail (.val 7 "e") (Code.effect 3 Code.ret))))).actions
        = [Action.effect 1, Action.send (.failed (.val 7 "e")), Action.effect 2] := by
  decide

/-- C1, amended: when the handler body reaches a call `fail(err)` with `err`
non-nil after performing only the effects `effs` and nested calls (no `defer`
statement, no `go` statement, no `runtime.Goexit()` before it), the task
launched by `RunWithContext` sends exactly `err` on the failure channel, sends
nothing on the completion channel, performs exactly the effects `effs` that
precede the call (nothing that follows it) and ends by `Goexit`; the same
holds when the body is reached through any chain of nested calls. -/
theorem fail_delivers_error_and_stops (ctx : Context) (h : Context → Code)
    (effs : List Effect) (err : GoError)
    (herr : err ≠ GoError.nil) (hp : (h ctx).path = .fails effs err) :
    RunWithContext ctx (handler h)
        = ⟨effs.map Action.effect ++ [.send (.failed err)], .goexit⟩
    ∧ (RunWithContext ctx (handler h)).failed = [err]
    ∧ (RunWithContext ctx (handler h)).completed = []
    ∧ (RunWithContext ctx (handler h)).effects = effs
    ∧ ∀ outer : List Code,
        RunWithContext ctx (handler fun c => (h c).nest outer)
          = ⟨effs.map Action.effect ++ [.send (.failed err)], .goexit⟩ := by
  have key : ∀ g : Context → Code, (g ctx).path = .fails effs err →
      RunWithContext ctx (handler g)
        = ⟨effs.map Action.effect ++ [.send (.failed err)], .goexit⟩ := by
    intro g hg
    rw [RunWithContext_of_fails ctx g effs err hg]
    simp [herr]
  have h0 := key h hp
  obtain ⟨h1, h2, h3, _, _⟩ := task_fails effs err
  refine ⟨h0, ?_, ?_, ?_, ?_⟩
  · rw [h0]; exact h1
  · rw [h0]; exact h2
  · rw [h0]; exact h3
  · intro outer
    exact key (fun c => (h c).nest outer) (path_nest_fails outer (h ctx) effs err hp)

/-- Witness for C1: one effect, a call of `fail` with a custom error, and an
effect after the call that is never performed. -/
theorem fail_delivers_error_and_stops_witness :
    GoError.val 7 "testing error failure" ≠ GoError.nil
    ∧ (Code.effect 1 (Code.fail (.val 7 "testing error failure") (Code.effect 2 Code.ret))).path
        = .fails [1] (.val 7 "testing error failure")
    ∧ (RunWithContext Context.background
        (handler fun _ => Code.effect 1
          (Code.fail (.val 7 "testing error failure") (Code.effect 2 Code.ret)))).failed
        = [GoError.val 7 "testing error failure"]
    ∧ (RunWithContext Context.background
        (handler fun _ => Code.effect 1
          (Code.fail (.val 7 "testing error failure") (Code.effect 2 Code.ret)))).effects
        = [1] :=
  ⟨by decide, by decide,
    (fail_delivers_error_and_stops Context.background
      (fun _ => Code.effect 1 (Code.fail (.val 7 "testing error failure") (Code.effect 2 Code.ret)))
      [1] (.val 7 "testing error failure") (by decide) (by decide)).2.1,
    (fail_delivers_error_and_stops Context.background
      (fun _ => Code.effect 1 (Code.fail (.val 7 "testing error failure") (Code.effect 2 Code.ret)))
      [1] (.val 7 "testing error failure") (by decide) (by decide)).2.2.2.1⟩

/-- C2: the closure `fail` delivers a non-nil error for every argument, and when
the handler body reaches a call `fail(err)` the failure channel of the task
carries exactly one value: `ErrNilFailure` when `err` is nil, `err` itself
otherwise; in both cases it is not nil.  For every handler body, with `defer`
and `go` statements or not, every error on the failure channel is non-nil. -/
theorem fail_never_delivers_nil (ctx : Context) (h : Context → Code)
    (effs : List Effect) (err : GoError) (hp : (h ctx).path = .fails effs err) :
    (∀ arg : GoError, ∃ d : GoError, d ≠ GoError.nil
        ∧ fail arg = ⟨[.send (.failed d)], .goexit⟩)
    ∧ (RunWithContext ctx (handler h)).failed
        = [if err = GoError.nil then ErrNilFailure else err]
    ∧ (err = GoError.nil → (RunWithContext ctx (handler h)).failed = [ErrNilFailure])
    ∧ (∀ d ∈ (RunWithContext ctx (handler h)).failed, d ≠ GoError.nil)
    ∧ ∀ g : Context → Code, ∀ d ∈ (RunWithContext ctx (handler g)).failed, d ≠ GoError.nil := by
  have h0 : (RunWithContext ctx (handler h)).failed
      = [if err = GoError.nil then ErrNilFailure else err] := by
    rw [RunWithContext_of_fails ctx h effs err hp]
    exact (task_fails effs _).1
  refine ⟨?_, h0, ?_, ?_, fun g => RunWithContext_failed_ne_nil ctx g⟩
  · intro arg
    exact ⟨_, normalised_ne_nil arg, fail_eq arg⟩
  · intro hnil
    simpa [hnil] using h0
  · intro d hd
    rw [h0] at hd
    simp only [List.mem_singleton] at hd
    rw [hd]
    exact normalised_ne_nil err

/-- Witness for C2: the handler of the test "fail with nil error". -/
theorem fail_never_delivers_nil_witness :
    (Code.effect 5 (Code.fail GoError.nil (Code.effect 5000 Code.ret))).path
        = .fails [5] GoError.nil
    ∧ (RunWithContext Context.background
        (handler fun _ => Code.effect 5 (Code.fail GoError.nil (Code.effect 5000 Code.ret)))).failed
        = [ErrNilFailure] :=
  ⟨by decide,
    (fail_never_delivers_nil Context.background
      (fun _ => Code.effect 5 (Code.fail GoError.nil (Code.effect 5000 Code.ret)))
      [5] GoError.nil (by decide)).2.2.1 rfl⟩

/-- C3: when the handler body returns normally without calling `fail`, after the
effects `effs`, the task launched by `RunWithContext` sends exactly one value
on the completion channel and nothing on the failure channel.  The same holds
for every handler body that contains no call of `fail` and returns normally,
with `defer` and `go` statements or not. -/
theorem normal_return_completes (ctx : Context) (h : Context → Code)
    (effs : List Effect) (hp : (h ctx).path = .returns effs) :
    RunWithContext ctx (handler h)
        = ⟨effs.map Action.effect ++ [.send .completed], .normal ()⟩
    ∧ (RunWithContext ctx (handler h)).completed = [()]
    ∧ (RunWithContext ctx (handler h)).failed = []
    ∧ (RunWithContext ctx (handler h)).effects = effs
    ∧ ∀ g : Context → Code, (g ctx).failFree = true →
        ((g ctx).exec fail).exit = .normal () →
        (RunWithContext ctx (handler g)).completed = [()]
        ∧ (RunWithContext ctx (handler g)).failed = [] := by
  have h0 := RunWithContext_of_returns ctx h effs hp
  obtain ⟨h1, h2, h3, _, _⟩ := task_returns effs
  refine ⟨h0, ?_, ?_, ?_, fun g hc hx => RunWithContext_failFree_normal ctx g hc hx⟩
  · rw [h0]; exact h1
  · rw [h0]; exact h2
  · rw [h0]; exact h3

/-- Witness for C3: the handler of the test "completion". -/
theorem normal_return_completes_witness :
    (Code.effect 5 Code.ret).path = .returns [5]
    ∧ (RunWithContext Context.background (handler fun _ => Code.effect 5 Code.ret)).completed = [()]
    ∧ (RunWithContext Context.background (handler fun _ => Code.effect 5 Code.ret)).failed = [] :=
  ⟨by decide,
    (normal_return_completes Context.background (fun _ => Code.effect 5 Code.ret) [5]
      (by decide)).2.1,
    (normal_return_completes Context.background (fun _ => Code.effect 5 Code.ret) [5]
      (by decide)).2.2.1⟩

/-- C4, the claim as stated fails: for the handler `go fail(e)`, which invokes
`fail` on a goroutine of its own and returns, the `select` of `DoWithContext`
can receive the completion signal and return nil although `fail` was invoked
with `e`; it can also return `e`. -/
theorem DoWithContext_nil_iff_completed_counterexample :
    DoWithContext Context.background
        (handler fun _ => Code.go (Code.fail (.val 7 "e") Code.ret) Code.ret)
        = [some (GoError.val 7 "e"), some GoError.nil]
    ∧ some GoError.nil ∈ DoWithContext Context.background
        (handler fun _ => Code.go (Code.fail (.val 7 "e") Code.ret) Code.ret)
    ∧ (RunWithContext Context.background
        (handler fun _ => Code.go (Code.fail (.val 7 "e") Code.ret) Code.ret)).failed
        = [GoError.val 7 "e"] := by
  decide

/-- C4, amended.  For a handler body in which no started goroutine calls `fail`,
`DoWithContext` has a single possible outcome; it returns nil exactly when
the call of the handler returns normally, and then nothing was sent on the
failure channel; it returns a non-nil error exactly when `fail` was invoked
(a value was sent on the failure channel), and that error is the first one
delivered on the failure channel.  For a handler body
that performs only side effects and nested calls up to its return, its first
call of `fail`, a `runtime.Goexit()` or a statement that never returns, the
outcome is single as well, nil exactly when the body returns without calling
`fail`, a non-nil error exactly when it calls `fail`, and that error is the
argument of the call, or `ErrNilFailure` when the argument is nil. -/
theorem DoWithContext_nil_iff_completed (ctx : Context) (h : Context → Code) :
    ((h ctx).failsOnOwnGoroutine = true →
        (∃ r, DoWithContext ctx (handler h) = [r])
        ∧ (some GoError.nil ∈ DoWithContext ctx (handler h)
            ↔ ((h ctx).exec fail).exit = .normal ())
        ∧ (((h ctx).exec fail).exit = .normal () →
            (RunWithContext ctx (handler h)).failed = [])
        ∧ ((∃ e, e ≠ GoError.nil ∧ some e ∈ DoWithContext ctx (handler h))
            ↔ (RunWithContext ctx (handler h)).failed ≠ [])
        ∧ ∀ e, e ≠ GoError.nil → some e ∈ DoWithContext ctx (handler h) →
            (RunWithContext ctx (handler h)).failed.head? = some e)
    ∧ ((h ctx).path ≠ .defersOrGoes →
        (∃ r, DoWithContext ctx (handler h) = [r])
        ∧ (some GoError.nil ∈ DoWithContext ctx (handler h)
            ↔ ∃ effs, (h ctx).path = .returns effs)
        ∧ ((∃ e, e ≠ GoError.nil ∧ some e ∈ DoWithContext ctx (handler h))
            ↔ ∃ effs arg, (h ctx).path = .fails effs arg)
        ∧ (∀ effs, (h ctx).path = .returns effs →
            DoWithContext ctx (handler h) = [some GoError.nil])
        ∧ ∀ effs arg, (h ctx).path = .fails effs arg →
            DoWithContext ctx (handler h)
              = [some (if arg = GoError.nil then ErrNilFailure else arg)]) := by
  constructor
  · intro hc
    rcases select_failsOnOwnGoroutine ctx h hc with ⟨hx, hs, hd⟩ | ⟨hx, hs, hd⟩ | ⟨hx, d, rest, hdn, hs, hd⟩
    · rw [hd]
      have hf : (RunWithContext ctx (handler h)).failed = [] := by simp [Task.failed, hs]
      refine ⟨⟨_, rfl⟩, ?_, fun _ => hf, ?_, ?_⟩
      · simp [hx]
      · simp only [hf, ne_eq, not_true_eq_false, iff_false, not_exists, not_and]
        intro e he hmem
        simp only [List.mem_singleton, Option.some.injEq] at hmem
        exact he hmem
      · intro e he hmem
        simp only [List.mem_singleton, Option.some.injEq] at hmem
        exact absurd hmem he
    · rw [hd]
      have hf : (RunWithContext ctx (handler h)).failed = [] := by simp [Task.failed, hs]
      refine ⟨⟨_, rfl⟩, ?_, fun _ => hf, ?_, ?_⟩
      · simp [hx]
      · simp [hf]
      · intro e _ hmem
        simp at hmem
    · rw [hd]
      have hf : (RunWithContext ctx (handler h)).failed
          = d :: (rest.filterMap fun s =>
              match s with
              | .completed => none
              | .failed err => some err) := by
        simp [Task.failed, hs]
      refine ⟨⟨_, rfl⟩, ?_, fun hn => absurd hn hx, ?_, ?_⟩
      · simp only [List.mem_singleton, Option.some.injEq]
        constructor
        · intro hh; exact absurd hh.symm hdn
        · intro hn; exact absurd hn hx
      · rw [hf]
        simp only [List.mem_singleton, Option.some.injEq, ne_eq, reduceCtorEq,
          not_false_eq_true, iff_true]
        exact ⟨d, hdn, rfl⟩
      · intro e _ hmem
        simp only [List.mem_singleton, Option.some.injEq] at hmem
        rw [hf, hmem]
        rfl
  · intro hs
    unfold DoWithContext
    cases hp : (h ctx).path with
    | returns effs =>
        rw [RunWithContext_of_returns ctx h effs hp, (task_returns effs).2.2.2.2]
        simp
    | fails effs arg =>
        rw [RunWithContext_of_fails ctx h effs arg hp, (task_fails effs _).2.2.2.2]
        have hn := normalised_ne_nil arg
        refine ⟨⟨_, rfl⟩, ?_, ?_, ?_, ?_⟩
        · simpa using fun hh => hn hh.symm
        · simpa using hn
        · intro effs2 h2
          simp at h2
        · intro effs2 arg2 h2
          simp only [Path.fails.injEq] at h2
          rw [h2.2]
    | blocks effs =>
        rw [RunWithContext_of_blocks ctx h effs hp, (task_silent effs _).2.2.2.2]
        simp
    | exits effs =>
        rw [RunWithContext_of_exits ctx h effs hp, (task_silent effs _).2.2.2.2]
        simp
    | defersOrGoes => exact absurd hp hs

/-- Witness for C4: a handler that calls `fail(nil)` makes `DoWithContext` return
`ErrNilFailure`, and a handler that defers a call of `fail` and returns makes
it return the deferred error. -/
theorem DoWithContext_nil_iff_completed_witness :
    (Code.effect 5 (Code.fail GoError.nil (Code.effect 5000 Code.ret))).path ≠ .defersOrGoes
    ∧ (Code.effect 5 (Code.fail GoError.nil (Code.effect 5000 Code.ret))).path
        = .fails [5] GoError.nil
    ∧ DoWithContext Context.background
        (handler fun _ => Code.effect 5 (Code.fail GoError.nil (Code.effect 5000 Code.ret)))
        = [some ErrNilFailure]
    ∧ (Code.defer (Code.fail (.val 7 "e") Code.ret) Code.ret).failsOnOwnGoroutine = true
    ∧ ∃ r, DoWithContext Context.background
        (handler fun _ => Code.defer (Code.fail (.val 7 "e") Code.ret) Code.ret) = [r] :=
  ⟨by decide, by decide,
    ((DoWithContext_nil_iff_completed Context.background
      (fun _ => Code.effect 5 (Code.fail GoError.nil (Code.effect 5000 Code.ret)))).2
      (by decide)).2.2.2.2 [5] GoError.nil (by decide),
    by decide,
    ((DoWithContext_nil_iff_completed Context.background
      (fun _ => Code.defer (Code.fail (.val 7 "e") Code.ret) Code.ret)).1 (by decide)).1⟩

/-- C5: when the simple handler body returns `err` after the effects `effs`, the
task launched by `RunSimpleWithContext` sends exactly `err` on the failure
channel and nothing on the completion channel if `err` is non-nil, and sends
exactly one value on the completion channel and nothing on the failure channel
if `err` is nil. -/
theorem RunSimpleWithContext_outcome (ctx : Context) (f : Context → SimpleCode)
    (effs : List Effect) (err : GoError) (hr : (f ctx).result = some (effs, err)) :
    (err ≠ GoError.nil →
        (RunSimpleWithContext ctx (simpleHandler f)).failed = [err]
        ∧ (RunSimpleWithContext ctx (simpleHandler f)).completed = []
        ∧ (RunSimpleWithContext ctx (simpleHandler f)).effects = effs)
    ∧ (err = GoError.nil →
        (RunSimpleWithContext ctx (simpleHandler f)).completed = [()]
        ∧ (RunSimpleWithContext ctx (simpleHandler f)).failed = []
        ∧ (RunSimpleWithContext ctx (simpleHandler f)).effects = effs) := by
  rw [RunSimpleWithContext_of_result ctx f effs err hr]
  constructor
  · intro hne
    rw [if_neg hne]
    exact ⟨(task_fails effs err).1, (task_fails effs err).2.1, (task_fails effs err).2.2.1⟩
  · intro heq
    rw [if_pos heq]
    exact ⟨(task_returns effs).1, (task_returns effs).2.1, (task_returns effs).2.2.1⟩

/-- Witness for C5: a simple handler that returns a custom error. -/
theorem RunSimpleWithContext_outcome_witness :
    (SimpleCode.effect 1 (SimpleCode.ret (.val 7 "boom"))).result = some ([1], .val 7 "boom")
    ∧ GoError.val 7 "boom" ≠ GoError.nil
    ∧ (RunSimpleWithContext Context.background
        (simpleHandler fun _ => SimpleCode.effect 1 (SimpleCode.ret (.val 7 "boom")))).failed
        = [GoError.val 7 "boom"] :=
  ⟨by decide, by decide,
    ((RunSimpleWithContext_outcome Context.background
      (fun _ => SimpleCode.effect 1 (SimpleCode.ret (.val 7 "boom")))
      [1] (.val 7 "boom") (by decide)).1 (by decide)).1⟩

/-- C6, the claim as stated fails.  A handler that never returns (`for {}`) makes
neither channel carry a value.  The handler `go fail(e)` makes both channels
carry a value, and `defer fail(e2); fail(e1)` puts two values on the failure
channel. -/
theorem exactly_one_signal_counterexample :
    (RunWithContext Context.background (handler fun _ => Code.block)).completed = []
    ∧ (RunWithContext Context.background (handler fun _ => Code.block)).failed = []
    ∧ ¬ ((RunWithContext Context.background (handler fun _ => Code.block)).completed.length
          + (RunWithContext Context.background (handler fun _ => Code.block)).failed.length = 1)
    ∧ DoWithContext Context.background (handler fun _ => Code.block) = [none]
    ∧ (RunWithContext Context.background
        (handler fun _ => Code.go (Code.fail (.val 7 "e") Code.ret) Code.ret)).sends
        = [Signal.failed (.val 7 "e"), Signal.completed]
    ∧ (RunWithContext Context.background
        (handler fun _ => Code.defer (Code.fail (.val 8 "e2") Code.ret)
          (Code.fail (.val 7 "e1") Code.ret))).sends
        = [Signal.failed (.val 7 "e1"), Signal.failed (.val 8 "e2")] := by
  decide

/-- C6, amended.  For a handler body in which no deferred function and no started
goroutine calls `fail`, the task launched by `RunWithContext` sends at most
one value across the two channels and never on both.  For a handler body that
performs only side effects and nested calls up to its return, its first call
of `fail`, a `runtime.Goexit()` or a statement that never returns, the same
holds, exactly one value is sent when the body returns or calls `fail`, and
none when it never returns or calls `runtime.Goexit()` itself. -/
theorem at_most_one_signal (ctx : Context) (h : Context → Code) :
    ((h ctx).failsDirectly = true →
        (RunWithContext ctx (handler h)).sends.length ≤ 1
        ∧ (RunWithContext ctx (handler h)).completed.length
            + (RunWithContext ctx (handler h)).failed.length ≤ 1
        ∧ ((RunWithContext ctx (handler h)).completed = []
            ∨ (RunWithContext ctx (handler h)).failed = []))
    ∧ ((h ctx).path ≠ .defersOrGoes →
        (RunWithContext ctx (handler h)).sends.length ≤ 1
        ∧ (RunWithContext ctx (handler h)).completed.length
            + (RunWithContext ctx (handler h)).failed.length ≤ 1
        ∧ ((RunWithContext ctx (handler h)).completed = []
            ∨ (RunWithContext ctx (handler h)).failed = [])
        ∧ ((RunWithContext ctx (handler h)).completed.length
            + (RunWithContext ctx (handler h)).failed.length = 1
            ↔ (∃ effs, (h ctx).path = .returns effs)
              ∨ ∃ effs err, (h ctx).path = .fails effs err)
        ∧ ((RunWithContext ctx (handler h)).completed.length
            + (RunWithContext ctx (handler h)).failed.length = 0
            ↔ (∃ effs, (h ctx).path = .blocks effs)
              ∨ ∃ effs, (h ctx).path = .exits effs)) := by
  constructor
  · intro hc
    have hle := RunWithContext_failsDirectly ctx h hc
    refine ⟨hle, ?_, completed_or_failed_nil _ hle⟩
    rw [completed_add_failed]
    exact hle
  · intro hs
    cases hp : (h ctx).path with
    | returns effs =>
        obtain ⟨h1, h2, _, h4, _⟩ := task_returns effs
        rw [RunWithContext_of_returns ctx h effs hp, h1, h2, h4]
        simp
    | fails effs err =>
        obtain ⟨h1, h2, _, h4, _⟩ :=
          task_fails effs (if err = GoError.nil then ErrNilFailure else err)
        rw [RunWithContext_of_fails ctx h effs err hp, h1, h2, h4]
        simp
    | blocks effs =>
        obtain ⟨h1, h2, _, h4, _⟩ := task_silent effs .blocked
        rw [RunWithContext_of_blocks ctx h effs hp, h1, h2, h4]
        simp
    | exits effs =>
        obtain ⟨h1, h2, _, h4, _⟩ := task_silent effs .goexit
        rw [RunWithContext_of_exits ctx h effs hp, h1, h2, h4]
        simp
    | defersOrGoes => exact absurd hp hs

/-- Witness for C6: a handler that defers an effect, starts a goroutine that
performs an effect, and then calls `fail` sends a single value. -/
theorem at_most_one_signal_witness :
    (Code.defer (Code.effect 2 Code.ret)
        (Code.go (Code.effect 3 Code.ret) (Code.fail (.val 7 "e") Code.ret))).failsDirectly = true
    ∧ (RunWithContext Context.background
        (handler fun _ => Code.defer (Code.effect 2 Code.ret)
          (Code.go (Code.effect 3 Code.ret) (Code.fail (.val 7 "e") Code.ret)))).sends.length ≤ 1 :=
  ⟨by decide,
    ((at_most_one_signal Context.background
      (fun _ => Code.defer (Code.effect 2 Code.ret)
        (Code.go (Code.effect 3 Code.ret) (Code.fail (.val 7 "e") Code.ret)))).1 (by decide)).1⟩

/-- C7: `RunWithContext` hands the caller's context to the handler and does
nothing else with it: the launched task is the handler run on that very
context followed by the completion send, so for a handler that ignores its
context the task and the result of `DoWithContext` are the same for every
context, a cancelled or expired one included. -/
theorem context_is_only_forwarded (ctx ctx2 : Context) :
    (∀ fn : HandlerFunc,
        RunWithContext ctx fn = Goroutine.bind (fn ctx fail) fun _ => Goroutine.send .completed)
    ∧ (∀ h : Context → Code,
        RunWithContext ctx (handler h) = RunWithContext ctx2 (handler fun _ => h ctx))
    ∧ (∀ g : FailFunc → Goroutine Unit,
        RunWithContext ctx (fun _ f => g f) = RunWithContext ctx2 (fun _ f => g f)
        ∧ DoWithContext ctx (fun _ f => g f) = DoWithContext ctx2 (fun _ f => g f))
    ∧ (∀ c : Code,
        RunWithContext ctx (handler fun _ => c) = RunWithContext Context.canceled (handler fun _ => c)
        ∧ DoWithContext ctx (handler fun _ => c)
            = DoWithContext Context.deadlineExceeded (handler fun _ => c)) :=
  ⟨fun _ => rfl, fun _ => rfl, fun _ => ⟨rfl, rfl⟩, fun _ => ⟨rfl, rfl⟩⟩

/-- C8: `Run`, `Do` and `RunSimple` are the context-taking variants applied to
the background context and to the handler that ignores its context and calls
`fn`; `fn` is run exactly once: the side effects of the launched task are the
side effects of one run of `fn`. -/
theorem default_context_variants_delegate :
    (∀ fn : FailFunc → Goroutine Unit,
        Run fn = RunWithContext Context.background (fun _ f => fn f)
        ∧ (Run fn).effects = (fn fail).effects)
    ∧ (∀ fn : FailFunc → Goroutine Unit,
        Do fn = DoWithContext Context.background (fun _ f => fn f)
        ∧ Do fn = (Run fn).select)
    ∧ (∀ fn : Goroutine GoError,
        RunSimple fn = RunSimpleWithContext Context.background (fun _ => fn)
        ∧ (RunSimple fn).effects = fn.effects) := by
  refine ⟨fun fn => ⟨rfl, ?_⟩, fun fn => ⟨rfl, rfl⟩, fun fn => ⟨rfl, ?_⟩⟩
  · exact effects_bind_send (fn fail)
  · show (Goroutine.bind (Goroutine.bind fn fun err =>
        if err ≠ GoError.nil then fail err else pure ()) fun _ =>
          Goroutine.send .completed).effects = fn.effects
    rw [effects_bind_send, effects_bind_failIfError]

/-- C10: the error delivered for `fail(arg)` is `ErrNilFailure` for nil and `arg`
otherwise.  Calling `fail(ErrNilFailure)` and calling `fail(nil)` at the same
point give the same task and make `DoWithContext` return `ErrNilFailure`,
although the two arguments differ; failing again with a delivered error
delivers it unchanged; two distinct non-nil arguments give distinct delivered
errors. -/
theorem fail_normalisation (ctx : Context) (h1 h2 : Context → Code) :
    (∀ effs, (h1 ctx).path = .fails effs ErrNilFailure → (h2 ctx).path = .fails effs GoError.nil →
        RunWithContext ctx (handler h1) = RunWithContext ctx (handler h2)
        ∧ DoWithContext ctx (handler h1) = [some ErrNilFailure]
        ∧ DoWithContext ctx (handler h2) = [some ErrNilFailure])
    ∧ (∀ effs arg d, (h1 ctx).path = .fails effs arg →
        DoWithContext ctx (handler h1) = [some d] → (h2 ctx).path = .fails effs d →
        DoWithContext ctx (handler h2) = [some d]
        ∧ RunWithContext ctx (handler h2) = RunWithContext ctx (handler h1))
    ∧ (∀ effs1 effs2 e1 e2, e1 ≠ GoError.nil → e2 ≠ GoError.nil → e1 ≠ e2 →
        (h1 ctx).path = .fails effs1 e1 → (h2 ctx).path = .fails effs2 e2 →
        DoWithContext ctx (handler h1) = [some e1]
        ∧ DoWithContext ctx (handler h2) = [some e2]
        ∧ DoWithContext ctx (handler h1) ≠ DoWithContext ctx (handler h2)
        ∧ (RunWithContext ctx (handler h1)).failed ≠ (RunWithContext ctx (handler h2)).failed)
    ∧ ErrNilFailure ≠ GoError.nil
    ∧ fail ErrNilFailure = fail GoError.nil := by
  refine ⟨?_, ?_, ?_, ErrNilFailure_ne_nil, ?_⟩
  · intro effs hp1 hp2
    simp only [DoWithContext, RunWithContext_of_fails ctx h1 effs _ hp1,
      RunWithContext_of_fails ctx h2 effs _ hp2, (task_fails _ _).2.2.2.2]
    simp [ErrNilFailure_ne_nil]
  · intro effs arg d hp1 hd hp2
    simp only [DoWithContext, RunWithContext_of_fails ctx h1 effs _ hp1,
      RunWithContext_of_fails ctx h2 effs _ hp2, (task_fails _ _).2.2.2.2] at hd ⊢
    simp only [List.cons.injEq, Option.some.injEq, and_true] at hd
    have hdn : d ≠ GoError.nil := hd ▸ normalised_ne_nil arg
    simp [hdn, hd]
  · intro effs1 effs2 e1 e2 hn1 hn2 hne hp1 hp2
    simp only [DoWithContext, RunWithContext_of_fails ctx h1 effs1 _ hp1,
      RunWithContext_of_fails ctx h2 effs2 _ hp2, (task_fails _ _).2.2.2.2, (task_fails _ _).1]
    simp [hn1, hn2, hne]
  · rw [fail_eq, fail_eq]
    simp [ErrNilFailure_ne_nil]

/-- Witness for C10: `fail(ErrNilFailure)` and `fail(nil)` after the same effect. -/
theorem fail_normalisation_witness :
    (Code.effect 1 (Code.fail ErrNilFailure Code.ret)).path = .fails [1] ErrNilFailure
    ∧ (Code.effect 1 (Code.fail GoError.nil (Code.effect 2 Code.ret))).path = .fails [1] GoError.nil
    ∧ RunWithContext Context.background (handler fun _ => Code.effect 1 (Code.fail ErrNilFailure Code.ret))
        = RunWithContext Context.background
            (handler fun _ => Code.effect 1 (Code.fail GoError.nil (Code.effect 2 Code.ret))) :=
  ⟨by decide, by decide,
    ((fail_normalisation Context.background
      (fun _ => Code.effect 1 (Code.fail ErrNilFailure Code.ret))
      (fun _ => Code.effect 1 (Code.fail GoError.nil (Code.effect 2 Code.ret)))).1
      [1] (by decide) (by decide)).1⟩

end Failable
